import Mathlib

/-!
Verification development for the mill-process record-and-analysis repository.

The derivation engine (`derive_data`, src/app.py lines 56-71) is embedded
shallowly: pandas numeric columns are modelled by `Cell`, a value that is
either a finite rational, a signed infinity (as produced by IEEE-754 float
division by zero), a NaN (which pandas also uses as its missing-value
marker), or a non-numeric text; the date column is modelled by `DateCell`.
Text values that pandas would successfully parse as numbers are modelled as
`Cell.num` from the start, so `Cell.str` stands precisely for the values
`pd.to_numeric(..., errors = coerce)` turns into NaN, and likewise
`DateCell.raw` stands for the date representations `pd.to_datetime` cannot
parse.  Floating-point rounding is abstracted to exact rational arithmetic;
the special values (infinities, NaN) and their propagation follow the
IEEE-754 rules pandas/numpy implement, which is what the claims about
zero division and missing data depend on.
-/

/-- A value of one numeric table cell, with pandas/numpy float semantics.
`nan` doubles as the missing-value marker (pandas represents missing
numeric data as NaN); `str` is a value that cannot be parsed as a number. -/
inductive Cell where
  | num (q : ℚ)
  | posInf
  | negInf
  | nan
  | str (s : String)
deriving DecidableEq, Repr

namespace Cell

/-- `pd.to_numeric(col, errors = coerce)` on one cell: numbers (and the
infinities, which pandas parses from inf-like text and keeps) survive,
anything unparsable becomes NaN (src/app.py lines 59-60). -/
def toNumeric : Cell → Cell
  | num q => num q
  | posInf => posInf
  | negInf => negInf
  | nan => nan
  | str _ => nan

/-- `pd.isna` on one cell: only NaN counts as missing (infinities and
text do not). -/
def isNA : Cell → Bool
  | nan => true
  | _ => false

/-- IEEE-754 addition as numpy performs it on float cells.  The `str`
cases are unreachable in `derive_data` (operands are coerced first). -/
def add : Cell → Cell → Cell
  | num a, num b => num (a + b)
  | num _, posInf => posInf
  | num _, negInf => negInf
  | posInf, num _ => posInf
  | negInf, num _ => negInf
  | posInf, posInf => posInf
  | negInf, negInf => negInf
  | _, _ => nan

/-- IEEE-754 subtraction as numpy performs it on float cells. -/
def sub : Cell → Cell → Cell
  | num a, num b => num (a - b)
  | num _, posInf => negInf
  | num _, negInf => posInf
  | posInf, num _ => posInf
  | negInf, num _ => negInf
  | posInf, negInf => posInf
  | negInf, posInf => negInf
  | _, _ => nan

/-- IEEE-754 multiplication as numpy performs it on float cells
(in particular `0 * inf = NaN`). -/
def mul : Cell → Cell → Cell
  | num a, num b => num (a * b)
  | num a, posInf => if 0 < a then posInf else if a < 0 then negInf else nan
  | num a, negInf => if 0 < a then negInf else if a < 0 then posInf else nan
  | posInf, num b => if 0 < b then posInf else if b < 0 then negInf else nan
  | negInf, num b => if 0 < b then negInf else if b < 0 then posInf else nan
  | posInf, posInf => posInf
  | negInf, negInf => posInf
  | posInf, negInf => negInf
  | negInf, posInf => negInf
  | _, _ => nan

/-- IEEE-754 division as numpy performs it on float cells: a nonzero
number divided by zero is a signed infinity, `0/0` is NaN.  (Negative
zero is not modelled: `to_numeric` never produces it from the data this
app handles, so a zero divisor counts as `+0`.) -/
def div : Cell → Cell → Cell
  | num a, num b =>
      if b = 0 then (if 0 < a then posInf else if a < 0 then negInf else nan)
      else num (a / b)
  | num _, posInf => num 0
  | num _, negInf => num 0
  | posInf, num b => if b < 0 then negInf else posInf
  | negInf, num b => if b < 0 then posInf else negInf
  | _, _ => nan

/-- `Series.clip(lower = 0, upper = 1)` on one cell: NaN propagates,
infinities land on the bounds.  The `str` case is unreachable in
`derive_data`. -/
def clip01 : Cell → Cell
  | num q => num (max 0 (min 1 q))
  | posInf => num 1
  | negInf => num 0
  | nan => nan
  | str s => str s

end Cell

/-- A value of the date column.  `raw` is a representation
`pd.to_datetime(..., errors = coerce)` fails to parse; parseable inputs
are modelled as `date` (days since an epoch) from the start; `missing`
is NaT. -/
inductive DateCell where
  | date (d : Int)
  | raw (s : String)
  | missing
deriving DecidableEq, Repr

/-- `pd.to_datetime(col, errors = coerce)` on one cell (src/app.py line 70). -/
def DateCell.toDatetime : DateCell → DateCell
  | date d => date d
  | raw _ => missing
  | missing => missing

/-- One row of the table, with the fixed 13-column schema of
`expected_columns` (src/app.py lines 24-28).  Field names are English
renderings of the Chinese column headers, in schema order:
date = 日期, tonnage = 原矿吨数, oreGrade = 原矿金品位,
tailLiquidGrade = 尾液品位, tailSolidGrade = 尾固品位,
tailLiquidGold = 尾液含金, tailSolidGold = 尾固含金,
overflowConc = 溢流浓度, overflowFine = 溢流细度, downtime = 停机时间,
tailingsGrade = 尾矿品位, recoveryRate = 回收率,
recoveredMetal = 回收金属量. -/
structure Row where
  date : DateCell
  tonnage : Cell
  oreGrade : Cell
  tailLiquidGrade : Cell
  tailSolidGrade : Cell
  tailLiquidGold : Cell
  tailSolidGold : Cell
  overflowConc : Cell
  overflowFine : Cell
  downtime : Cell
  tailingsGrade : Cell
  recoveryRate : Cell
  recoveredMetal : Cell
deriving DecidableEq, Repr

/-- src/app.py lines 58-60: coerce the seven columns of `numeric_cols`
(the four required raw fields plus overflow concentration, overflow
fineness and downtime) to numeric.  The two tailings-stream grade
readings and the three derived columns are not in the list. -/
def coerceRow (r : Row) : Row :=
  { r with
    tonnage := r.tonnage.toNumeric
    oreGrade := r.oreGrade.toNumeric
    tailLiquidGold := r.tailLiquidGold.toNumeric
    tailSolidGold := r.tailSolidGold.toNumeric
    overflowConc := r.overflowConc.toNumeric
    overflowFine := r.overflowFine.toNumeric
    downtime := r.downtime.toNumeric }

/-- src/app.py line 62: a row survives
`dropna(subset = [tonnage, oreGrade, tailLiquidGold, tailSolidGold])`
exactly when none of the four required raw fields is NA. -/
def computable (r : Row) : Bool :=
  !r.tonnage.isNA && !r.oreGrade.isNA && !r.tailLiquidGold.isNA && !r.tailSolidGold.isNA

/-- One cell of `df.update(df_calculated)` (src/app.py line 69):
`update` only writes non-NA values from the other frame, so a NaN
result never overwrites the previous value. -/
def updateCell (old v : Cell) : Cell :=
  if v.isNA then old else v

/-- src/app.py lines 62-69 for one row: rows dropped by `dropna` pass
through unchanged; for the rest the three derived columns are computed
and merged back through `df.update`, which skips NA results. -/
def deriveRow (r : Row) : Row :=
  if computable r then
    let tg := r.tailLiquidGold.add r.tailSolidGold
    let rr := ((r.oreGrade.sub tg).div r.oreGrade).clip01
    let rm := (r.tonnage.mul r.oreGrade).mul rr
    { r with
      tailingsGrade := updateCell r.tailingsGrade tg
      recoveryRate := updateCell r.recoveryRate rr
      recoveredMetal := updateCell r.recoveredMetal rm }
  else r

/-- src/app.py line 70: normalize the date column. -/
def normDateRow (r : Row) : Row :=
  { r with date := r.date.toDatetime }

/-- `derive_data` (src/app.py lines 56-71): coerce the numeric columns,
compute the three derived columns for complete rows and merge them back,
then normalize the date column. -/
def derive_data (df : List Row) : List Row :=
  ((df.map coerceRow).map deriveRow).map normDateRow

/-- The whole per-row action of `derive_data`. -/
def deriveFull (r : Row) : Row :=
  normDateRow (deriveRow (coerceRow r))

theorem derive_data_eq_map (df : List Row) : derive_data df = df.map deriveFull := by
  simp [derive_data, deriveFull, List.map_map, Function.comp_def]

theorem derive_data_getElem? (df : List Row) (i : Nat) :
    (derive_data df)[i]? = (df[i]?).map deriveFull := by
  rw [derive_data_eq_map, List.getElem?_map]

@[simp] theorem Cell.toNumeric_toNumeric (c : Cell) : c.toNumeric.toNumeric = c.toNumeric := by
  cases c <;> rfl

@[simp] theorem DateCell.toDatetime_toDatetime (d : DateCell) :
    d.toDatetime.toDatetime = d.toDatetime := by
  cases d <;> rfl

theorem updateCell_updateCell (old v : Cell) :
    updateCell (updateCell old v) v = updateCell old v := by
  unfold updateCell
  by_cases hv : v.isNA <;> simp [hv]

@[simp] theorem coerceRow_date (r : Row) : (coerceRow r).date = r.date := rfl
@[simp] theorem coerceRow_tonnage (r : Row) : (coerceRow r).tonnage = r.tonnage.toNumeric := rfl
@[simp] theorem coerceRow_oreGrade (r : Row) : (coerceRow r).oreGrade = r.oreGrade.toNumeric := rfl
@[simp] theorem coerceRow_tailLiquidGrade (r : Row) :
    (coerceRow r).tailLiquidGrade = r.tailLiquidGrade := rfl
@[simp] theorem coerceRow_tailSolidGrade (r : Row) :
    (coerceRow r).tailSolidGrade = r.tailSolidGrade := rfl
@[simp] theorem coerceRow_tailLiquidGold (r : Row) :
    (coerceRow r).tailLiquidGold = r.tailLiquidGold.toNumeric := rfl
@[simp] theorem coerceRow_tailSolidGold (r : Row) :
    (coerceRow r).tailSolidGold = r.tailSolidGold.toNumeric := rfl
@[simp] theorem coerceRow_overflowConc (r : Row) :
    (coerceRow r).overflowConc = r.overflowConc.toNumeric := rfl
@[simp] theorem coerceRow_overflowFine (r : Row) :
    (coerceRow r).overflowFine = r.overflowFine.toNumeric := rfl
@[simp] theorem coerceRow_downtime (r : Row) : (coerceRow r).downtime = r.downtime.toNumeric := rfl
@[simp] theorem coerceRow_tailingsGrade (r : Row) :
    (coerceRow r).tailingsGrade = r.tailingsGrade := rfl
@[simp] theorem coerceRow_recoveryRate (r : Row) :
    (coerceRow r).recoveryRate = r.recoveryRate := rfl
@[simp] theorem coerceRow_recoveredMetal (r : Row) :
    (coerceRow r).recoveredMetal = r.recoveredMetal := rfl

@[simp] theorem normDateRow_date (r : Row) : (normDateRow r).date = r.date.toDatetime := rfl
@[simp] theorem normDateRow_tonnage (r : Row) : (normDateRow r).tonnage = r.tonnage := rfl
@[simp] theorem normDateRow_oreGrade (r : Row) : (normDateRow r).oreGrade = r.oreGrade := rfl
@[simp] theorem normDateRow_tailLiquidGrade (r : Row) :
    (normDateRow r).tailLiquidGrade = r.tailLiquidGrade := rfl
@[simp] theorem normDateRow_tailSolidGrade (r : Row) :
    (normDateRow r).tailSolidGrade = r.tailSolidGrade := rfl
@[simp] theorem normDateRow_tailLiquidGold (r : Row) :
    (normDateRow r).tailLiquidGold = r.tailLiquidGold := rfl
@[simp] theorem normDateRow_tailSolidGold (r : Row) :
    (normDateRow r).tailSolidGold = r.tailSolidGold := rfl
@[simp] theorem normDateRow_overflowConc (r : Row) :
    (normDateRow r).overflowConc = r.overflowConc := rfl
@[simp] theorem normDateRow_overflowFine (r : Row) :
    (normDateRow r).overflowFine = r.overflowFine := rfl
@[simp] theorem normDateRow_downtime (r : Row) : (normDateRow r).downtime = r.downtime := rfl
@[simp] theorem normDateRow_tailingsGrade (r : Row) :
    (normDateRow r).tailingsGrade = r.tailingsGrade := rfl
@[simp] theorem normDateRow_recoveryRate (r : Row) :
    (normDateRow r).recoveryRate = r.recoveryRate := rfl
@[simp] theorem normDateRow_recoveredMetal (r : Row) :
    (normDateRow r).recoveredMetal = r.recoveredMetal := rfl

@[simp] theorem deriveRow_date (r : Row) : (deriveRow r).date = r.date := by
  unfold deriveRow; split <;> rfl
@[simp] theorem deriveRow_tonnage (r : Row) : (deriveRow r).tonnage = r.tonnage := by
  unfold deriveRow; split <;> rfl
@[simp] theorem deriveRow_oreGrade (r : Row) : (deriveRow r).oreGrade = r.oreGrade := by
  unfold deriveRow; split <;> rfl
@[simp] theorem deriveRow_tailLiquidGrade (r : Row) :
    (deriveRow r).tailLiquidGrade = r.tailLiquidGrade := by
  unfold deriveRow; split <;> rfl
@[simp] theorem deriveRow_tailSolidGrade (r : Row) :
    (deriveRow r).tailSolidGrade = r.tailSolidGrade := by
  unfold deriveRow; split <;> rfl
@[simp] theorem deriveRow_tailLiquidGold (r : Row) :
    (deriveRow r).tailLiquidGold = r.tailLiquidGold := by
  unfold deriveRow; split <;> rfl
@[simp] theorem deriveRow_tailSolidGold (r : Row) :
    (deriveRow r).tailSolidGold = r.tailSolidGold := by
  unfold deriveRow; split <;> rfl
@[simp] theorem deriveRow_overflowConc (r : Row) :
    (deriveRow r).overflowConc = r.overflowConc := by
  unfold deriveRow; split <;> rfl
@[simp] theorem deriveRow_overflowFine (r : Row) :
    (deriveRow r).overflowFine = r.overflowFine := by
  unfold deriveRow; split <;> rfl
@[simp] theorem deriveRow_downtime (r : Row) : (deriveRow r).downtime = r.downtime := by
  unfold deriveRow; split <;> rfl

theorem computable_normDateRow (r : Row) : computable (normDateRow r) = computable r := rfl

theorem computable_deriveRow (r : Row) : computable (deriveRow r) = computable r := by
  unfold deriveRow; split <;> rfl

attribute [ext] Row

theorem deriveRow_tailingsGrade (r : Row) :
    (deriveRow r).tailingsGrade =
      if computable r then updateCell r.tailingsGrade (r.tailLiquidGold.add r.tailSolidGold)
      else r.tailingsGrade := by
  unfold deriveRow; split <;> rfl

theorem deriveRow_recoveryRate (r : Row) :
    (deriveRow r).recoveryRate =
      if computable r then
        updateCell r.recoveryRate
          ((r.oreGrade.sub (r.tailLiquidGold.add r.tailSolidGold)).div r.oreGrade).clip01
      else r.recoveryRate := by
  unfold deriveRow; split <;> rfl

theorem deriveRow_recoveredMetal (r : Row) :
    (deriveRow r).recoveredMetal =
      if computable r then
        updateCell r.recoveredMetal
          ((r.tonnage.mul r.oreGrade).mul
            ((r.oreGrade.sub (r.tailLiquidGold.add r.tailSolidGold)).div r.oreGrade).clip01)
      else r.recoveredMetal := by
  unfold deriveRow; split <;> rfl

theorem coerceRow_coerceRow (r : Row) : coerceRow (coerceRow r) = coerceRow r := by
  ext <;> simp

theorem normDateRow_normDateRow (r : Row) : normDateRow (normDateRow r) = normDateRow r := by
  ext <;> simp

theorem coerceRow_normDateRow (r : Row) :
    coerceRow (normDateRow r) = normDateRow (coerceRow r) := rfl

theorem coerceRow_deriveRow_coerceRow (r : Row) :
    coerceRow (deriveRow (coerceRow r)) = deriveRow (coerceRow r) := by
  ext <;> simp

theorem deriveRow_normDateRow (r : Row) :
    deriveRow (normDateRow r) = normDateRow (deriveRow r) := by
  ext <;> simp [deriveRow_tailingsGrade, deriveRow_recoveryRate, deriveRow_recoveredMetal,
    computable_normDateRow]

theorem deriveRow_deriveRow (r : Row) : deriveRow (deriveRow r) = deriveRow r := by
  by_cases h : computable r <;>
    ext <;>
      simp [deriveRow_tailingsGrade, deriveRow_recoveryRate, deriveRow_recoveredMetal,
        computable_deriveRow, h, updateCell_updateCell]

theorem deriveFull_deriveFull (r : Row) : deriveFull (deriveFull r) = deriveFull r := by
  unfold deriveFull
  rw [coerceRow_normDateRow, coerceRow_deriveRow_coerceRow, deriveRow_normDateRow,
    deriveRow_deriveRow, normDateRow_normDateRow]

/-- C4: applying the derivation engine twice is the same as applying it
once: `derive_data (derive_data T) = derive_data T` for every table. -/
theorem derive_data_idempotent (T : List Row) :
    derive_data (derive_data T) = derive_data T := by
  rw [derive_data_eq_map, derive_data_eq_map, List.map_map]
  exact List.map_congr_left (fun r _ => deriveFull_deriveFull r)

/-- C1: for every row whose four required raw fields (tonnage, ore grade,
and the two tailings gold-content readings) are present and numeric and
whose ore grade is nonzero, `derive_data` sets the tailings grade to the
sum of the two tailings gold-content readings, sets the recovery rate to
`(ore_grade - tailings_grade) / ore_grade` clamped to `[0, 1]` (hence the
rate lies in `[0, 1]` inclusive), and sets the recovered metal to
`tonnage * ore_grade * recovery_rate` exactly. -/
theorem derive_computable_row (T : List Row) (i : Nat) (r : Row) (t g l s : ℚ)
    (hr : T[i]? = some r)
    (ht : r.tonnage = Cell.num t) (hg : r.oreGrade = Cell.num g)
    (hl : r.tailLiquidGold = Cell.num l) (hs : r.tailSolidGold = Cell.num s)
    (hg0 : g ≠ 0) :
    ∃ r', (derive_data T)[i]? = some r' ∧
      r'.tailingsGrade = Cell.num (l + s) ∧
      r'.recoveryRate = Cell.num (max 0 (min 1 ((g - (l + s)) / g))) ∧
      (0 : ℚ) ≤ max 0 (min 1 ((g - (l + s)) / g)) ∧
      max 0 (min 1 ((g - (l + s)) / g)) ≤ 1 ∧
      r'.recoveredMetal = Cell.num (t * g * max 0 (min 1 ((g - (l + s)) / g))) := by
  have hcp : computable (coerceRow r) = true := by
    simp [computable, ht, hg, hl, hs, Cell.toNumeric, Cell.isNA]
  refine ⟨deriveFull r, by rw [derive_data_getElem?, hr]; rfl, ?_, ?_, ?_, ?_, ?_⟩
  · simp [deriveFull, deriveRow_tailingsGrade, hcp, hl, hs, Cell.toNumeric, Cell.add,
      updateCell, Cell.isNA]
  · simp [deriveFull, deriveRow_recoveryRate, hcp, ht, hg, hl, hs, Cell.toNumeric, Cell.add,
      Cell.sub, Cell.div, Cell.clip01, hg0, updateCell, Cell.isNA]
  · exact le_max_left 0 _
  · exact max_le (by norm_num) (min_le_left 1 _)
  · simp [deriveFull, deriveRow_recoveredMetal, hcp, ht, hg, hl, hs, Cell.toNumeric, Cell.add,
      Cell.sub, Cell.div, Cell.mul, Cell.clip01, hg0, updateCell, Cell.isNA, mul_assoc]

/-- The fully-populated example row of spec section 8: tonnage 100, ore
grade 2.0, tailings-liquid gold 0.05, tailings-solid gold 0.03. -/
def rowEx : Row :=
  { date := DateCell.date 0, tonnage := Cell.num 100, oreGrade := Cell.num 2,
    tailLiquidGrade := Cell.nan, tailSolidGrade := Cell.nan,
    tailLiquidGold := Cell.num (1/20), tailSolidGold := Cell.num (3/100),
    overflowConc := Cell.nan, overflowFine := Cell.nan, downtime := Cell.nan,
    tailingsGrade := Cell.nan, recoveryRate := Cell.nan, recoveredMetal := Cell.nan }

/-- Witness for C1 at the spec section 8 example row. -/
theorem derive_computable_row_witness :
    ∃ r', (derive_data [rowEx])[0]? = some r' ∧
      r'.tailingsGrade = Cell.num (1/20 + 3/100) ∧
      r'.recoveryRate = Cell.num (max 0 (min 1 ((2 - (1/20 + 3/100)) / 2))) ∧
      (0 : ℚ) ≤ max 0 (min 1 ((2 - (1/20 + 3/100)) / 2)) ∧
      max (0 : ℚ) (min 1 ((2 - (1/20 + 3/100)) / 2)) ≤ 1 ∧
      r'.recoveredMetal = Cell.num (100 * 2 * max 0 (min 1 ((2 - (1/20 + 3/100)) / 2))) :=
  derive_computable_row [rowEx] 0 rowEx 100 2 (1/20) (3/100) rfl rfl rfl rfl rfl (by norm_num)

/-- C5: a row missing (after numeric coercion) at least one of the four
required raw fields keeps all three derived fields exactly as they were:
`derive_data` never overwrites them with missing or zero. -/
theorem derive_incomplete_row (T : List Row) (i : Nat) (r : Row)
    (hr : T[i]? = some r)
    (h : computable (coerceRow r) = false) :
    ∃ r', (derive_data T)[i]? = some r' ∧
      r'.tailingsGrade = r.tailingsGrade ∧
      r'.recoveryRate = r.recoveryRate ∧
      r'.recoveredMetal = r.recoveredMetal := by
  refine ⟨deriveFull r, by rw [derive_data_getElem?, hr]; rfl, ?_, ?_, ?_⟩
  · simp [deriveFull, deriveRow_tailingsGrade, h]
  · simp [deriveFull, deriveRow_recoveryRate, h]
  · simp [deriveFull, deriveRow_recoveredMetal, h]

/-- A row with a missing tonnage but previously-set derived fields. -/
def rowInc : Row :=
  { rowEx with
    tonnage := Cell.nan
    tailingsGrade := Cell.num 3
    recoveryRate := Cell.num (1/2)
    recoveredMetal := Cell.num 7 }

/-- Witness for C5 at a row with a missing tonnage and previously set
derived values. -/
theorem derive_incomplete_row_witness :
    ∃ r', (derive_data [rowInc])[0]? = some r' ∧
      r'.tailingsGrade = rowInc.tailingsGrade ∧
      r'.recoveryRate = rowInc.recoveryRate ∧
      r'.recoveredMetal = rowInc.recoveredMetal :=
  derive_incomplete_row [rowInc] 0 rowInc rfl rfl

/-- C10: `derive_data` numerically coerces all seven `numeric_cols`
columns (the four required raw fields plus overflow concentration,
overflow fineness and downtime) in every row, complete or not, so any
non-numeric value there becomes missing; the two tailings-stream grade
readings are never coerced or modified. -/
theorem derive_numeric_coercion (T : List Row) (i : Nat) (r : Row)
    (hr : T[i]? = some r) :
    ∃ r', (derive_data T)[i]? = some r' ∧
      r'.tonnage = r.tonnage.toNumeric ∧
      r'.oreGrade = r.oreGrade.toNumeric ∧
      r'.tailLiquidGold = r.tailLiquidGold.toNumeric ∧
      r'.tailSolidGold = r.tailSolidGold.toNumeric ∧
      r'.overflowConc = r.overflowConc.toNumeric ∧
      r'.overflowFine = r.overflowFine.toNumeric ∧
      r'.downtime = r.downtime.toNumeric ∧
      r'.tailLiquidGrade = r.tailLiquidGrade ∧
      r'.tailSolidGrade = r.tailSolidGrade := by
  refine ⟨deriveFull r, by rw [derive_data_getElem?, hr]; rfl, ?_, ?_, ?_, ?_, ?_, ?_, ?_, ?_, ?_⟩ <;>
    simp [deriveFull]

/-- An incomplete row carrying unparsable text in the optional numeric
columns and text values in the tailings-stream grade readings. -/
def rowText : Row :=
  { rowEx with
    tonnage := Cell.nan
    tailLiquidGrade := Cell.str (r"trace")
    tailSolidGrade := Cell.str (r"n/a")
    overflowConc := Cell.str (r"x")
    overflowFine := Cell.str (r"??")
    downtime := Cell.str (r"none") }

/-- Witness for C10 at an incomplete row with text in the optional and
tailings-grade columns. -/
theorem derive_numeric_coercion_witness :
    ∃ r', (derive_data [rowText])[0]? = some r' ∧
      r'.tonnage = rowText.tonnage.toNumeric ∧
      r'.oreGrade = rowText.oreGrade.toNumeric ∧
      r'.tailLiquidGold = rowText.tailLiquidGold.toNumeric ∧
      r'.tailSolidGold = rowText.tailSolidGold.toNumeric ∧
      r'.overflowConc = rowText.overflowConc.toNumeric ∧
      r'.overflowFine = rowText.overflowFine.toNumeric ∧
      r'.downtime = rowText.downtime.toNumeric ∧
      r'.tailLiquidGrade = rowText.tailLiquidGrade ∧
      r'.tailSolidGrade = rowText.tailSolidGrade :=
  derive_numeric_coercion [rowText] 0 rowText rfl

/-- C9: `derive_data` is total and drops no row: the output has exactly
one row per input row, and unparsable inputs (dates the date parser
rejects, text in the required numeric fields) degrade to missing values
instead of failing. -/
theorem derive_data_total (T : List Row) :
    (derive_data T).length = T.length ∧
    ∀ (i : Nat) (r : Row), T[i]? = some r →
      ∃ r', (derive_data T)[i]? = some r' ∧
        (∀ s, r.date = DateCell.raw s → r'.date = DateCell.missing) ∧
        (∀ s, r.tonnage = Cell.str s → r'.tonnage = Cell.nan) ∧
        (∀ s, r.oreGrade = Cell.str s → r'.oreGrade = Cell.nan) ∧
        (∀ s, r.tailLiquidGold = Cell.str s → r'.tailLiquidGold = Cell.nan) ∧
        (∀ s, r.tailSolidGold = Cell.str s → r'.tailSolidGold = Cell.nan) := by
  constructor
  · simp [derive_data_eq_map]
  · intro i r hr
    refine ⟨deriveFull r, by rw [derive_data_getElem?, hr]; rfl, ?_, ?_, ?_, ?_, ?_⟩ <;>
      intro s hs <;> simp [deriveFull, hs, DateCell.toDatetime, Cell.toNumeric]

/-- A row whose date is unparsable and whose tonnage is text. -/
def rowBadDate : Row :=
  { rowEx with date := DateCell.raw (r"not-a-date"), tonnage := Cell.str (r"many") }

/-- Witness for C9: the bad row is kept, its unparsable date and text
tonnage both degrade to missing. -/
theorem derive_data_total_witness :
    (derive_data [rowBadDate]).length = 1 ∧
    ∃ r', (derive_data [rowBadDate])[0]? = some r' ∧
      r'.date = DateCell.missing ∧ r'.tonnage = Cell.nan := by
  obtain ⟨hlen, hrows⟩ := derive_data_total [rowBadDate]
  obtain ⟨r', hr', hdate, hton, _⟩ := hrows 0 rowBadDate rfl
  exact ⟨hlen, r', hr', hdate (r"not-a-date") rfl, hton (r"many") rfl⟩

/-- A complete row whose ore grade is zero and whose tailings gold sum
is positive (1 + 0), with recovery rate previously missing. -/
def rowZeroGrade : Row :=
  { rowEx with
    tonnage := Cell.num 1
    oreGrade := Cell.num 0
    tailLiquidGold := Cell.num 1
    tailSolidGold := Cell.num 0 }

/-- C2 counterexample: on a complete row with `ore_grade = 0` and
tailings gold sum `1`, `derive_data` does NOT leave the recovery rate
missing: numpy evaluates `(0 - 1) / 0` to negative infinity, `clip`
turns it into `0`, and `update` writes it, so the previously missing
recovery rate becomes `0` (and the recovered metal becomes `0`), not a
preserved missing value as the claim states. -/
theorem derive_zero_grade_counterexample :
    rowZeroGrade.recoveryRate = Cell.nan ∧
    (derive_data [rowZeroGrade]).map Row.recoveryRate = [Cell.num 0] ∧
    (derive_data [rowZeroGrade]).map Row.recoveredMetal = [Cell.num 0] ∧
    Cell.num 0 ≠ Cell.nan := by
  refine ⟨rfl, by with_unfolding_all rfl, by with_unfolding_all rfl, by simp⟩

/-- C2 amended: for a row whose four required raw fields are numeric and
whose ore grade is zero, the outcome depends on the sign of the tailings
gold sum, because numpy turns the zero division into a signed infinity
(then clamped) rather than a missing value: a positive sum sets the
recovery rate to `0`, a negative sum sets it to `1` (recovered metal
becomes `0` in both cases); only when the sum is exactly zero does the
`0/0` division produce NaN, which `update` skips, leaving the row's
previous recovery rate and recovered metal untouched.  The tailings
grade is always set to the sum. -/
theorem derive_zero_grade_row (T : List Row) (i : Nat) (r : Row) (t l s : ℚ)
    (hr : T[i]? = some r)
    (ht : r.tonnage = Cell.num t) (hg : r.oreGrade = Cell.num 0)
    (hl : r.tailLiquidGold = Cell.num l) (hs : r.tailSolidGold = Cell.num s) :
    ∃ r', (derive_data T)[i]? = some r' ∧
      r'.tailingsGrade = Cell.num (l + s) ∧
      (0 < l + s → r'.recoveryRate = Cell.num 0 ∧ r'.recoveredMetal = Cell.num 0) ∧
      (l + s < 0 → r'.recoveryRate = Cell.num 1 ∧ r'.recoveredMetal = Cell.num 0) ∧
      (l + s = 0 → r'.recoveryRate = r.recoveryRate ∧
        r'.recoveredMetal = r.recoveredMetal) := by
  have hcp : computable (coerceRow r) = true := by
    simp [computable, ht, hg, hl, hs, Cell.toNumeric, Cell.isNA]
  refine ⟨deriveFull r, by rw [derive_data_getElem?, hr]; rfl, ?_, ?_, ?_, ?_⟩
  · simp [deriveFull, deriveRow_tailingsGrade, hcp, hl, hs, Cell.toNumeric, Cell.add,
      updateCell, Cell.isNA]
  · intro hpos
    have h1 : ¬ l < -s := by linarith
    have h2 : -s < l := by linarith
    constructor
    · simp [deriveFull, deriveRow_recoveryRate, hcp, ht, hg, hl, hs, Cell.toNumeric, Cell.add,
        Cell.sub, Cell.div, Cell.clip01, h1, h2, updateCell, Cell.isNA]
    · simp [deriveFull, deriveRow_recoveredMetal, hcp, ht, hg, hl, hs, Cell.toNumeric, Cell.add,
        Cell.sub, Cell.div, Cell.mul, Cell.clip01, h1, h2, updateCell, Cell.isNA]
  · intro hneg
    have h1 : l < -s := by linarith
    constructor
    · simp [deriveFull, deriveRow_recoveryRate, hcp, ht, hg, hl, hs, Cell.toNumeric, Cell.add,
        Cell.sub, Cell.div, Cell.clip01, h1, updateCell, Cell.isNA]
    · simp [deriveFull, deriveRow_recoveredMetal, hcp, ht, hg, hl, hs, Cell.toNumeric, Cell.add,
        Cell.sub, Cell.div, Cell.mul, Cell.clip01, h1, updateCell, Cell.isNA]
  · intro hzero
    have h1 : ¬ l < -s := by linarith
    have h2 : ¬ -s < l := by linarith
    constructor
    · simp [deriveFull, deriveRow_recoveryRate, hcp, ht, hg, hl, hs, Cell.toNumeric, Cell.add,
        Cell.sub, Cell.div, Cell.clip01, h1, h2, updateCell, Cell.isNA]
    · simp [deriveFull, deriveRow_recoveredMetal, hcp, ht, hg, hl, hs, Cell.toNumeric, Cell.add,
        Cell.sub, Cell.div, Cell.mul, Cell.clip01, h1, h2, updateCell, Cell.isNA]

/-- Witness for the amended C2 at the concrete zero-grade row with
positive tailings gold sum. -/
theorem derive_zero_grade_row_witness :
    ∃ r', (derive_data [rowZeroGrade])[0]? = some r' ∧
      r'.recoveryRate = Cell.num 0 ∧ r'.recoveredMetal = Cell.num 0 := by
  obtain ⟨r', hr', _, hpos, _, _⟩ :=
    derive_zero_grade_row [rowZeroGrade] 0 rowZeroGrade 1 1 0 rfl rfl rfl rfl rfl
  exact ⟨r', hr', hpos (by norm_num)⟩

/-- A raw tabular frame as the import path sees it: named columns in
order, each a list of cells (column-major, like a DataFrame). -/
abbrev FTable := List (String × List Cell)

/-- The header list of a frame. -/
def columnNames (t : FTable) : List String := t.map Prod.fst

/-- `df[c]`: the first column named `c`, if any. -/
def lookupCol (t : FTable) (c : String) : Option (List Cell) :=
  (t.find? (fun p => p.1 == c)).map Prod.snd

/-- `expected_columns` (src/app.py lines 24-28): the canonical ordered
13-field schema, headers rendered in English (same renderings as the
`Row` fields). -/
def expected_columns : List String :=
  [r"date", r"tonnage", r"ore_grade", r"tail_liquid_grade", r"tail_solid_grade",
   r"tail_liquid_gold", r"tail_solid_gold", r"overflow_conc", r"overflow_fine",
   r"downtime", r"tailings_grade", r"recovery_rate", r"recovered_metal"]

/-- src/app.py lines 112-114: for every canonical column absent from the
imported frame, append it filled with missing values (`None`). -/
def addMissingColumns (nrows : Nat) (t : FTable) : FTable :=
  expected_columns.foldl
    (fun acc c =>
      if (columnNames acc).contains c then acc
      else acc ++ [(c, List.replicate nrows Cell.nan)])
    t

/-- src/app.py lines 112-117 (file import handler): add the missing
canonical columns, then select the canonical columns in schema order
(`new_data_from_file[expected_columns]`), which drops every other
column. -/
def importNormalize (nrows : Nat) (t : FTable) : FTable :=
  expected_columns.map
    (fun c => (c, (lookupCol (addMissingColumns nrows t) c).getD []))

theorem lookupCol_cons (p : String × List Cell) (t : FTable) (c : String) :
    lookupCol (p :: t) c = if p.1 == c then some p.2 else lookupCol t c := by
  cases h : p.1 == c <;> simp [lookupCol, List.find?_cons, h]

theorem lookupCol_append_left (t u : FTable) (c : String) (d : List Cell)
    (h : lookupCol t c = some d) : lookupCol (t ++ u) c = some d := by
  induction t with
  | nil => simp [lookupCol] at h
  | cons p t ih =>
    rw [List.cons_append, lookupCol_cons]
    rw [lookupCol_cons] at h
    cases hp : p.1 == c <;> simp [hp] at h ⊢
    · exact ih h
    · exact h

theorem lookupCol_append_right_of_not_mem (t : FTable) (c : String) (v : List Cell)
    (h : c ∉ columnNames t) : lookupCol (t ++ [(c, v)]) c = some v := by
  induction t with
  | nil => simp [lookupCol_cons]
  | cons p t ih =>
    simp [columnNames] at h
    rw [List.cons_append, lookupCol_cons]
    have hp : (p.1 == c) = false := by
      simp
      intro he
      exact h.1 (by rw [he])
    simp [hp]
    exact ih (by simp [columnNames, h.2])

theorem contains_columnNames_eq_false (t : FTable) (c : String)
    (h : c ∉ columnNames t) : (columnNames t).contains c = false := by
  simpa using h

theorem lookupCol_map_self (l : List String) (f : String → List Cell) (c : String)
    (h : c ∈ l) :
    lookupCol (l.map (fun x => (x, f x))) c = some (f c) := by
  induction l with
  | nil => cases h
  | cons x xs ih =>
    rw [List.map_cons, lookupCol_cons]
    by_cases hx : x = c
    · subst hx; simp
    · have hb : (x == c) = false := by simp [hx]
      simp [hb]
      rcases List.mem_cons.mp h with h1 | h1
      · exact absurd h1.symm hx
      · exact ih h1

theorem foldl_addMissing_preserve (n : Nat) (c : String) (d : List Cell) :
    ∀ (l : List String) (acc : FTable), lookupCol acc c = some d →
      lookupCol
        (l.foldl
          (fun acc c2 =>
            if (columnNames acc).contains c2 then acc
            else acc ++ [(c2, List.replicate n Cell.nan)])
          acc) c = some d := by
  intro l
  induction l with
  | nil => intro acc h; exact h
  | cons x xs ih =>
    intro acc h
    rw [List.foldl_cons]
    apply ih
    by_cases hx : (columnNames acc).contains x
    · simp only [if_pos hx]; exact h
    · simp only [if_neg hx]; exact lookupCol_append_left _ _ _ _ h

theorem foldl_addMissing_filled (n : Nat) (c : String) :
    ∀ (l : List String) (acc : FTable), c ∈ l → c ∉ columnNames acc →
      lookupCol
        (l.foldl
          (fun acc c2 =>
            if (columnNames acc).contains c2 then acc
            else acc ++ [(c2, List.replicate n Cell.nan)])
          acc) c = some (List.replicate n Cell.nan) := by
  intro l
  induction l with
  | nil => intro acc hmem _; cases hmem
  | cons x xs ih =>
    intro acc hmem hnot
    rw [List.foldl_cons]
    by_cases hx : x = c
    · subst hx
      have hcont : (columnNames acc).contains x = false :=
        contains_columnNames_eq_false _ _ hnot
      rw [hcont]
      simp only [Bool.false_eq_true, if_false]
      exact foldl_addMissing_preserve n x _ xs _
        (lookupCol_append_right_of_not_mem _ _ _ hnot)
    · have hmem' : c ∈ xs := by
        rcases List.mem_cons.mp hmem with h1 | h1
        · exact absurd h1.symm hx
        · exact h1
      by_cases hb : (columnNames acc).contains x
      · simp only [if_pos hb]
        exact ih acc hmem' hnot
      · simp only [if_neg hb]
        apply ih _ hmem'
        simp [columnNames] at hnot ⊢
        exact ⟨hnot, fun he => hx he.symm⟩

/-- C8: the import-path normalization (src/app.py lines 112-117) returns
a frame whose header list is exactly the canonical 13-field schema in
order; every canonical column absent from the input is present and
filled with missing values; every input header matching no canonical
name is absent from the output (dropped without failure). -/
theorem importNormalize_schema (n : Nat) (t : FTable) :
    columnNames (importNormalize n t) = expected_columns ∧
    expected_columns.length = 13 ∧
    (∀ c, c ∈ expected_columns → c ∉ columnNames t →
      lookupCol (importNormalize n t) c = some (List.replicate n Cell.nan)) ∧
    (∀ nm, nm ∉ expected_columns → nm ∉ columnNames (importNormalize n t)) := by
  have hnames : columnNames (importNormalize n t) = expected_columns := by
    simp [importNormalize, columnNames, List.map_map, Function.comp_def]
  refine ⟨hnames, rfl, ?_, ?_⟩
  · intro c hc hnot
    have hfill := foldl_addMissing_filled n c expected_columns t hc hnot
    rw [importNormalize, lookupCol_map_self _ _ _ hc]
    rw [addMissingColumns, hfill]
    rfl
  · intro nm hnm
    rw [hnames]
    exact hnm

/-- An imported frame with one recognized column, one unknown column,
and two data rows. -/
def tRaw : FTable := [(r"tonnage", [Cell.num 5, Cell.num 6]), (r"junk", [Cell.num 1, Cell.num 2])]

/-- Witness for C8: normalizing `tRaw` yields the canonical header list,
fills the absent `date` column with missing values, and drops the
unknown `junk` column. -/
theorem importNormalize_schema_witness :
    columnNames (importNormalize 2 tRaw) = expected_columns ∧
    lookupCol (importNormalize 2 tRaw) (r"date") = some (List.replicate 2 Cell.nan) ∧
    (r"junk") ∉ columnNames (importNormalize 2 tRaw) := by
  obtain ⟨h1, _, h3, h4⟩ := importNormalize_schema 2 tRaw
  exact ⟨h1, h3 (r"date") (by decide) (by decide), h4 (r"junk") (by decide)⟩

/-- An imported frame whose only header is a synonym ("Au_grade") for
the canonical ore-grade column, with two data rows. -/
def tAliasRaw : FTable := [(r"Au_grade", [Cell.num 2, Cell.num 3])]

/-- C7 counterexample: the import path (src/app.py lines 95-121) is
fully present in the source and performs no alias translation.  On a
frame whose header is a synonym for the ore-grade column, normalization
does NOT place the data under the canonical name: the synonymous header
is dropped like any unknown header and the canonical `ore_grade` column
is filled with missing values instead of the data. -/
theorem importNormalize_alias_counterexample :
    lookupCol (importNormalize 2 tAliasRaw) (r"ore_grade") = some [Cell.nan, Cell.nan] ∧
    (r"Au_grade") ∉ columnNames (importNormalize 2 tAliasRaw) ∧
    some [Cell.nan, Cell.nan] ≠ some [Cell.num 2, Cell.num 3] := by
  refine ⟨by with_unfolding_all rfl, by decide, by simp⟩

/-- C7 amended: normalization performs no alias translation.  Any
header that is not exactly a canonical column name - a known synonym
included - is dropped silently, and a canonical column absent under its
exact name is filled with missing values rather than with the
synonymous column's data. -/
theorem importNormalize_drops_alias (n : Nat) (t : FTable) (h c : String)
    (hh : h ∉ expected_columns)
    (hc : c ∈ expected_columns) (hcn : c ∉ columnNames t) :
    h ∉ columnNames (importNormalize n t) ∧
    lookupCol (importNormalize n t) c = some (List.replicate n Cell.nan) := by
  have hnames : columnNames (importNormalize n t) = expected_columns := by
    simp [importNormalize, columnNames, List.map_map, Function.comp_def]
  constructor
  · rw [hnames]
    exact hh
  · have hfill := foldl_addMissing_filled n c expected_columns t hc hcn
    rw [importNormalize, lookupCol_map_self _ _ _ hc]
    rw [addMissingColumns, hfill]
    rfl

/-- Witness for the amended C7 at the synonymous-header frame. -/
theorem importNormalize_drops_alias_witness :
    (r"Au_grade") ∉ columnNames (importNormalize 2 tAliasRaw) ∧
    lookupCol (importNormalize 2 tAliasRaw) (r"ore_grade") =
      some (List.replicate 2 Cell.nan) :=
  importNormalize_drops_alias 2 tAliasRaw (r"Au_grade") (r"ore_grade")
    (by decide) (by decide) (by decide)

/-! ### Formula evaluator

Modelled from the spec: the Formula Evaluator of spec section 4.2,
`evaluate(table, new_column_name, expression)`, is part of the
repository's user-defined formula column mechanism that is not in the
src extract, so it is modelled from the spec's words: the expression
string is lexed into numbers, identifiers, the four arithmetic
operators, parentheses, and a catch-all token for every other
character; a recursive-descent parser accepts exactly the arithmetic
grammar over those tokens; references to unknown columns, malformed
syntax, and any non-arithmetic token yield a `FormulaInvalid` error with
a human-readable reason, leaving the table untouched; on success the
expression is evaluated row-wise, missing operands and division by zero
producing missing values, and the resulting column is written under the
given name (overwriting an existing column of that name). -/

/-- The error value of spec sections 4.2 and 7: always carries a
human-readable reason. -/
structure FormulaInvalid where
  reason : String
deriving DecidableEq, Repr

/-- A lexical token of the formula language. -/
inductive Tok where
  | num (q : ℚ)
  | ident (s : String)
  | plus
  | minus
  | star
  | slash
  | lparen
  | rparen
  | other (c : Char)
deriving DecidableEq, Repr

/-- First character of an identifier: a letter or underscore. -/
def isIdentStart (c : Char) : Bool := c.isAlpha || c == '_'

/-- Continuation character of an identifier. -/
def isIdentChar (c : Char) : Bool := c.isAlpha || c.isDigit || c == '_'

/-- Decimal digits to a natural number. -/
def digitsToNat (ds : List Char) : Nat :=
  ds.foldl (fun a c => 10 * a + (c.toNat - 48)) 0

/-- The lexer, fuelled by the input length (each step consumes at least
one character, so the fuel never runs out when starting from
`tokenize`). -/
def tokenizeAux : Nat → List Char → List Tok
  | _, [] => []
  | 0, _ => []
  | fuel + 1, c :: cs =>
    if c.isWhitespace then tokenizeAux fuel cs
    else if isIdentStart c then
      Tok.ident (String.mk ((c :: cs).takeWhile isIdentChar)) ::
        tokenizeAux fuel ((c :: cs).dropWhile isIdentChar)
    else if c.isDigit then
      let ds := (c :: cs).takeWhile Char.isDigit
      let rest1 := (c :: cs).dropWhile Char.isDigit
      match rest1 with
      | '.' :: r =>
        if (r.head?.map Char.isDigit).getD false then
          let fs := r.takeWhile Char.isDigit
          Tok.num ((digitsToNat ds : ℚ) + (digitsToNat fs : ℚ) / (10 : ℚ) ^ fs.length) ::
            tokenizeAux fuel (r.dropWhile Char.isDigit)
        else Tok.num (digitsToNat ds : ℚ) :: tokenizeAux fuel rest1
      | _ => Tok.num (digitsToNat ds : ℚ) :: tokenizeAux fuel rest1
    else if c == '+' then Tok.plus :: tokenizeAux fuel cs
    else if c == '-' then Tok.minus :: tokenizeAux fuel cs
    else if c == '*' then Tok.star :: tokenizeAux fuel cs
    else if c == '/' then Tok.slash :: tokenizeAux fuel cs
    else if c == '(' then Tok.lparen :: tokenizeAux fuel cs
    else if c == ')' then Tok.rparen :: tokenizeAux fuel cs
    else Tok.other c :: tokenizeAux fuel cs

/-- Lex an expression string. -/
def tokenize (s : String) : List Tok :=
  tokenizeAux (s.data.length + 1) s.data

/-- The abstract syntax of an accepted formula: numeric literals, column
references, and the four arithmetic operators. -/
inductive Expr where
  | lit (q : ℚ)
  | col (s : String)
  | add (a b : Expr)
  | sub (a b : Expr)
  | mul (a b : Expr)
  | div (a b : Expr)
deriving DecidableEq, Repr

/-- The column names referenced by a formula. -/
def Expr.colsOf : Expr → List String
  | lit _ => []
  | col s => [s]
  | add a b => a.colsOf ++ b.colsOf
  | sub a b => a.colsOf ++ b.colsOf
  | mul a b => a.colsOf ++ b.colsOf
  | div a b => a.colsOf ++ b.colsOf

mutual

/-- Expression level of the recursive-descent parser: a term followed by
any number of `+`/`-` continuations.  All levels are fuelled; the fuel
chosen by `parseFull` is large enough for every accepted input, and fuel
exhaustion is merely one more way to reject. -/
def parseE : Nat → List Tok → Except String (Expr × List Tok)
  | 0, _ => Except.error (r"expression too deeply nested")
  | fuel + 1, toks =>
    match parseT fuel toks with
    | Except.error e => Except.error e
    | Except.ok (t, rest) => parseELoop fuel t rest

/-- `+`/`-` continuation loop (left-associative). -/
def parseELoop : Nat → Expr → List Tok → Except String (Expr × List Tok)
  | 0, _, _ => Except.error (r"expression too deeply nested")
  | fuel + 1, acc, toks =>
    match toks with
    | Tok.plus :: rest =>
      match parseT fuel rest with
      | Except.error e => Except.error e
      | Except.ok (t, rest2) => parseELoop fuel (Expr.add acc t) rest2
    | Tok.minus :: rest =>
      match parseT fuel rest with
      | Except.error e => Except.error e
      | Except.ok (t, rest2) => parseELoop fuel (Expr.sub acc t) rest2
    | _ => Except.ok (acc, toks)

/-- Term level: a factor followed by any number of `*`/`/`
continuations. -/
def parseT : Nat → List Tok → Except String (Expr × List Tok)
  | 0, _ => Except.error (r"expression too deeply nested")
  | fuel + 1, toks =>
    match parseF fuel toks with
    | Except.error e => Except.error e
    | Except.ok (f, rest) => parseTLoop fuel f rest

/-- `*`/`/` continuation loop (left-associative). -/
def parseTLoop : Nat → Expr → List Tok → Except String (Expr × List Tok)
  | 0, _, _ => Except.error (r"expression too deeply nested")
  | fuel + 1, acc, toks =>
    match toks with
    | Tok.star :: rest =>
      match parseF fuel rest with
      | Except.error e => Except.error e
      | Except.ok (f, rest2) => parseTLoop fuel (Expr.mul acc f) rest2
    | Tok.slash :: rest =>
      match parseF fuel rest with
      | Except.error e => Except.error e
      | Except.ok (f, rest2) => parseTLoop fuel (Expr.div acc f) rest2
    | _ => Except.ok (acc, toks)

/-- Factor level: a numeric literal, a column identifier, or a
parenthesized expression.  Anything else (including every `other`
token) is rejected. -/
def parseF : Nat → List Tok → Except String (Expr × List Tok)
  | 0, _ => Except.error (r"expression too deeply nested")
  | fuel + 1, toks =>
    match toks with
    | Tok.num q :: rest => Except.ok (Expr.lit q, rest)
    | Tok.ident s :: rest => Except.ok (Expr.col s, rest)
    | Tok.lparen :: rest =>
      match parseE fuel rest with
      | Except.error e => Except.error e
      | Except.ok (e, Tok.rparen :: rest2) => Except.ok (e, rest2)
      | Except.ok (_, _) => Except.error (r"expected closing parenthesis")
    | _ => Except.error (r"expected a number, a column name, or a parenthesized expression")

end

/-- Parse a whole token list as one expression; trailing tokens are a
syntax error. -/
def parseFull (toks : List Tok) : Except String Expr :=
  match parseE (3 * toks.length + 3) toks with
  | Except.error e => Except.error e
  | Except.ok (e, []) => Except.ok e
  | Except.ok (_, _ :: _) => Except.error (r"unexpected token after expression")

/-- One row's value of one cell under the formula semantics: only finite
numbers participate; anything else is a missing operand. -/
def cellVal : Cell → Option ℚ
  | Cell.num q => some q
  | _ => none

/-- Row-wise evaluation against an environment of column values:
missing operands propagate, division by zero yields missing. -/
def evalExpr (env : String → Option ℚ) : Expr → Option ℚ
  | Expr.lit q => some q
  | Expr.col s => env s
  | Expr.add a b =>
    match evalExpr env a, evalExpr env b with
    | some x, some y => some (x + y)
    | _, _ => none
  | Expr.sub a b =>
    match evalExpr env a, evalExpr env b with
    | some x, some y => some (x - y)
    | _, _ => none
  | Expr.mul a b =>
    match evalExpr env a, evalExpr env b with
    | some x, some y => some (x * y)
    | _, _ => none
  | Expr.div a b =>
    match evalExpr env a, evalExpr env b with
    | some x, some y => if y = 0 then none else some (x / y)
    | _, _ => none

/-- Number of rows of a frame (the length of its first column). -/
def numRows (t : FTable) : Nat :=
  (t.head?.map (fun p => p.2.length)).getD 0

/-- The environment of row `i`: a column name to that row's value. -/
def rowEnv (t : FTable) (i : Nat) (c : String) : Option ℚ :=
  match lookupCol t c with
  | some col => (col[i]?).bind cellVal
  | none => none

/-- Write a column: overwrite the column of the same name if present,
otherwise append it. -/
def writeColumn (t : FTable) (name : String) (vals : List Cell) : FTable :=
  if (columnNames t).contains name then
    t.map (fun p => if p.1 == name then (p.1, vals) else p)
  else t ++ [(name, vals)]

/-- Modelled from the spec:
`evaluate(table, new_column_name, expression)` of spec section 4.2.
Returns the (possibly extended) table together with `none` on success,
or the untouched input table together with a `FormulaInvalid` carrying
the reason on failure. -/
def evaluate (t : FTable) (name : String) (expression : String) :
    FTable × Option FormulaInvalid :=
  match parseFull (tokenize expression) with
  | Except.error e => (t, some ⟨e⟩)
  | Except.ok e =>
    if (Expr.colsOf e).all (fun c => (columnNames t).contains c) then
      (writeColumn t name
        ((List.range (numRows t)).map
          (fun i =>
            match evalExpr (rowEnv t i) e with
            | some q => Cell.num q
            | none => Cell.nan)),
        none)
    else (t, some ⟨r"unknown column reference"⟩)

/-- A token outside the arithmetic language. -/
def Tok.isOther : Tok → Bool
  | other _ => true
  | _ => false

/-- A call-like shape: an identifier immediately followed by an opening
parenthesis somewhere in the token stream. -/
def callAdjacent : List Tok → Bool
  | Tok.ident _ :: Tok.lparen :: _ => true
  | _ :: rest => callAdjacent rest
  | [] => false

/-- A token stream disqualified by the safety boundary: it contains a
non-arithmetic token or a call-like shape. -/
def badToken (toks : List Tok) : Bool :=
  toks.any Tok.isOther || callAdjacent toks

/-- The adjacency constraint the parser maintains: an identifier is
never immediately followed by an opening parenthesis. -/
def TokOk (a b : Tok) : Prop := ∀ s, a = Tok.ident s → b ≠ Tok.lparen

/-- The invariant of every token run the parser consumes: adjacent
tokens satisfy `TokOk` and no token is non-arithmetic. -/
def GoodRun (l : List Tok) : Prop :=
  List.Chain' TokOk l ∧ ∀ x ∈ l, x.isOther = false

theorem TokOk_of_ne_lparen (x y : Tok) (h : y ≠ Tok.lparen) : TokOk x y :=
  fun _ _ => h

theorem goodRun_nil : GoodRun [] := ⟨List.chain'_nil, by simp⟩

theorem goodRun_singleton (x : Tok) (h : x.isOther = false) : GoodRun [x] :=
  ⟨List.chain'_singleton x, by simp [h]⟩

theorem goodRun_append (a b : List Tok) (ha : GoodRun a) (hb : GoodRun b)
    (hbd : b.head? ≠ some Tok.lparen) : GoodRun (a ++ b) := by
  constructor
  · refine List.chain'_append.mpr ⟨ha.1, hb.1, ?_⟩
    intro x _ y hy
    refine TokOk_of_ne_lparen x y ?_
    intro he
    exact hbd (by rw [← he]; exact hy)
  · intro x hx
    rcases List.mem_append.mp hx with h1 | h1
    · exact ha.2 x h1
    · exact hb.2 x h1

theorem goodRun_cons_nonident (x : Tok) (l : List Tok) (hx : x.isOther = false)
    (hni : ∀ s, x ≠ Tok.ident s) (hl : GoodRun l) : GoodRun (x :: l) := by
  constructor
  · refine List.chain'_cons'.mpr ⟨?_, hl.1⟩
    intro y _
    exact fun s hs => absurd hs (hni s)
  · intro y hy
    rcases List.mem_cons.mp hy with h1 | h1
    · rw [h1]; exact hx
    · exact hl.2 y h1

theorem goodRun_no_other (l : List Tok) (h : GoodRun l) : l.any Tok.isOther = false := by
  rw [List.any_eq_false]
  intro x hx
  simp [h.2 x hx]

theorem goodRun_no_call (l : List Tok) (h : GoodRun l) : callAdjacent l = false := by
  induction l with
  | nil => rfl
  | cons x rest ih =>
    cases rest with
    | nil => cases x <;> rfl
    | cons y rest2 =>
      have hxy : TokOk x y := (List.chain'_cons.mp h.1).1
      have hrest : GoodRun (y :: rest2) :=
        ⟨(List.chain'_cons.mp h.1).2, fun z hz => h.2 z (List.mem_cons_of_mem x hz)⟩
      have ih2 := ih hrest
      cases x <;> cases y <;>
        first
          | exact absurd rfl (hxy _ rfl)
          | simpa [callAdjacent] using ih2

theorem goodRun_badToken (l : List Tok) (h : GoodRun l) : badToken l = false := by
  rw [badToken, goodRun_no_other l h, goodRun_no_call l h]
  rfl

/-- Every token run any level of the parser consumes is a prefix of the
input, is a `GoodRun` (no non-arithmetic token, no identifier directly
followed by an opening parenthesis), and for the two operator loops
never starts with an opening parenthesis. -/
theorem parse_consumed (fuel : Nat) :
    (∀ toks e rest, parseE fuel toks = Except.ok (e, rest) →
      ∃ pre, toks = pre ++ rest ∧ GoodRun pre) ∧
    (∀ acc toks e rest, parseELoop fuel acc toks = Except.ok (e, rest) →
      ∃ pre, toks = pre ++ rest ∧ GoodRun pre ∧ pre.head? ≠ some Tok.lparen) ∧
    (∀ toks e rest, parseT fuel toks = Except.ok (e, rest) →
      ∃ pre, toks = pre ++ rest ∧ GoodRun pre) ∧
    (∀ acc toks e rest, parseTLoop fuel acc toks = Except.ok (e, rest) →
      ∃ pre, toks = pre ++ rest ∧ GoodRun pre ∧ pre.head? ≠ some Tok.lparen) ∧
    (∀ toks e rest, parseF fuel toks = Except.ok (e, rest) →
      ∃ pre, toks = pre ++ rest ∧ GoodRun pre) := by
  induction fuel with
  | zero =>
    refine ⟨?_, ?_, ?_, ?_, ?_⟩
    · intro toks e rest h; unfold parseE at h; exact absurd h (by simp)
    · intro acc toks e rest h; unfold parseELoop at h; exact absurd h (by simp)
    · intro toks e rest h; unfold parseT at h; exact absurd h (by simp)
    · intro acc toks e rest h; unfold parseTLoop at h; exact absurd h (by simp)
    · intro toks e rest h; unfold parseF at h; exact absurd h (by simp)
  | succ fuel ih =>
    obtain ⟨ihE, ihEL, ihT, ihTL, ihF⟩ := ih
    refine ⟨?_, ?_, ?_, ?_, ?_⟩
    · -- parseE
      intro toks e rest h
      unfold parseE at h
      split at h
      · exact absurd h (by simp)
      · next t rest1 hT =>
        obtain ⟨preT, hTeq, hTgood⟩ := ihT toks t rest1 hT
        obtain ⟨preL, hLeq, hLgood, hLhead⟩ := ihEL t rest1 e rest h
        exact ⟨preT ++ preL, by simp [hTeq, hLeq],
          goodRun_append _ _ hTgood hLgood hLhead⟩
    · -- parseELoop
      intro acc toks e rest h
      unfold parseELoop at h
      split at h
      · next rest0 =>
        split at h
        · exact absurd h (by simp)
        · next t rest1 hT =>
          obtain ⟨preT, hTeq, hTgood⟩ := ihT rest0 t rest1 hT
          obtain ⟨preL, hLeq, hLgood, hLhead⟩ := ihEL _ rest1 e rest h
          refine ⟨Tok.plus :: (preT ++ preL), by simp [hTeq, hLeq], ?_, by simp⟩
          exact goodRun_cons_nonident _ _ rfl (fun s hs => Tok.noConfusion hs)
            (goodRun_append _ _ hTgood hLgood hLhead)
      · next rest0 =>
        split at h
        · exact absurd h (by simp)
        · next t rest1 hT =>
          obtain ⟨preT, hTeq, hTgood⟩ := ihT rest0 t rest1 hT
          obtain ⟨preL, hLeq, hLgood, hLhead⟩ := ihEL _ rest1 e rest h
          refine ⟨Tok.minus :: (preT ++ preL), by simp [hTeq, hLeq], ?_, by simp⟩
          exact goodRun_cons_nonident _ _ rfl (fun s hs => Tok.noConfusion hs)
            (goodRun_append _ _ hTgood hLgood hLhead)
      · have he : acc = e ∧ toks = rest := by
          have h2 := h
          simp at h2
          exact ⟨h2.1, h2.2⟩
        exact ⟨[], by simp [he.2], goodRun_nil, by simp⟩
    · -- parseT
      intro toks e rest h
      unfold parseT at h
      split at h
      · exact absurd h (by simp)
      · next f rest1 hF =>
        obtain ⟨preF, hFeq, hFgood⟩ := ihF toks f rest1 hF
        obtain ⟨preL, hLeq, hLgood, hLhead⟩ := ihTL f rest1 e rest h
        exact ⟨preF ++ preL, by simp [hFeq, hLeq],
          goodRun_append _ _ hFgood hLgood hLhead⟩
    · -- parseTLoop
      intro acc toks e rest h
      unfold parseTLoop at h
      split at h
      · next rest0 =>
        split at h
        · exact absurd h (by simp)
        · next f rest1 hF =>
          obtain ⟨preF, hFeq, hFgood⟩ := ihF rest0 f rest1 hF
          obtain ⟨preL, hLeq, hLgood, hLhead⟩ := ihTL _ rest1 e rest h
          refine ⟨Tok.star :: (preF ++ preL), by simp [hFeq, hLeq], ?_, by simp⟩
          exact goodRun_cons_nonident _ _ rfl (fun s hs => Tok.noConfusion hs)
            (goodRun_append _ _ hFgood hLgood hLhead)
      · next rest0 =>
        split at h
        · exact absurd h (by simp)
        · next f rest1 hF =>
          obtain ⟨preF, hFeq, hFgood⟩ := ihF rest0 f rest1 hF
          obtain ⟨preL, hLeq, hLgood, hLhead⟩ := ihTL _ rest1 e rest h
          refine ⟨Tok.slash :: (preF ++ preL), by simp [hFeq, hLeq], ?_, by simp⟩
          exact goodRun_cons_nonident _ _ rfl (fun s hs => Tok.noConfusion hs)
            (goodRun_append _ _ hFgood hLgood hLhead)
      · have he : acc = e ∧ toks = rest := by
          have h2 := h
          simp at h2
          exact ⟨h2.1, h2.2⟩
        exact ⟨[], by simp [he.2], goodRun_nil, by simp⟩
    · -- parseF
      intro toks e rest h
      unfold parseF at h
      split at h
      · next q rest0 =>
        have he : Expr.lit q = e ∧ rest0 = rest := by simpa using h
        exact ⟨[Tok.num q], by simp [he.2], goodRun_singleton _ rfl⟩
      · next s rest0 =>
        have he : Expr.col s = e ∧ rest0 = rest := by simpa using h
        exact ⟨[Tok.ident s], by simp [he.2], goodRun_singleton _ rfl⟩
      · next rest0 =>
        split at h
        · exact absurd h (by simp)
        · next e1 rest2 hE =>
          have he : e1 = e ∧ rest2 = rest := by simpa using h
          obtain ⟨preE, hEeq, hEgood⟩ := ihE rest0 e1 (Tok.rparen :: rest2) hE
          refine ⟨Tok.lparen :: (preE ++ [Tok.rparen]), by simp [hEeq, he.2], ?_⟩
          refine goodRun_cons_nonident _ _ rfl (fun s hs => Tok.noConfusion hs) ?_
          exact goodRun_append _ _ hEgood (goodRun_singleton _ rfl) (by simp)
        · exact absurd h (by simp)
      · exact absurd h (by simp)

/-- A fully parsed token list is a `GoodRun`. -/
theorem parseFull_goodRun (toks : List Tok) (e : Expr)
    (h : parseFull toks = Except.ok e) : GoodRun toks := by
  unfold parseFull at h
  split at h
  · exact absurd h (by simp)
  · next e1 hE =>
    obtain ⟨pre, heq, hgood⟩ := (parse_consumed (3 * toks.length + 3)).1 toks e1 [] hE
    rw [heq, List.append_nil]
    exact hgood
  · exact absurd h (by simp)

/-- Either `evaluate` fails, returning the input table untouched with
some error, or it succeeds and the parsed expression references only
existing columns. -/
theorem evaluate_cases (t : FTable) (name expression : String) :
    (∃ err, evaluate t name expression = (t, some err)) ∨
    (∃ e, parseFull (tokenize expression) = Except.ok e ∧
      (∀ c ∈ Expr.colsOf e, c ∈ columnNames t) ∧
      (evaluate t name expression).2 = none) := by
  unfold evaluate
  split
  · next err hp => exact Or.inl ⟨⟨err⟩, rfl⟩
  · next e hp =>
    split
    · next hall => exact Or.inr ⟨e, hp, by simpa using hall, rfl⟩
    · next hall => exact Or.inl ⟨_, rfl⟩

/-- Any failing `evaluate` returns the input table untouched. -/
theorem evaluate_error_unchanged (t : FTable) (name expression : String)
    (h : (evaluate t name expression).2.isSome) :
    (evaluate t name expression).1 = t := by
  rcases evaluate_cases t name expression with ⟨err, heq⟩ | ⟨e, _, _, hnone⟩
  · rw [heq]
  · rw [hnone] at h
    exact absurd h (by simp)

/-- The claim's failure condition on one invocation: the expression is
syntactically malformed, or it parses but references a column absent
from the table. -/
def badFormula (t : FTable) (expression : String) : Bool :=
  match parseFull (tokenize expression) with
  | Except.error _ => true
  | Except.ok e => !(Expr.colsOf e).all (fun c => (columnNames t).contains c)

/-- C3 (spec-modelled): `evaluate` applied to an expression that is
malformed or references a column absent from the table fails
atomically: the returned table is exactly the input table and a
`FormulaInvalid` error (which always carries a human-readable reason)
is returned. -/
theorem evaluate_invalid_atomic (t : FTable) (name expression : String)
    (h : badFormula t expression = true) :
    (evaluate t name expression).1 = t ∧ (evaluate t name expression).2.isSome := by
  rcases evaluate_cases t name expression with ⟨err, heq⟩ | ⟨e, hp, hall, _⟩
  · rw [heq]
    exact ⟨rfl, rfl⟩
  · unfold badFormula at h
    rw [hp] at h
    simp at h
    obtain ⟨x, hx1, hx2⟩ := h
    exact absurd (hall x hx1) hx2

/-- A two-row table used by the evaluator witnesses. -/
def tDemo : FTable :=
  [(r"tonnage", [Cell.num 100, Cell.nan]), (r"ore_grade", [Cell.num 2, Cell.num 0])]

/-- Witness for C3: an unknown column reference and a malformed
expression both fail atomically on `tDemo`. -/
theorem evaluate_invalid_atomic_witness :
    ((evaluate tDemo (r"metal") (r"tonnage * missing_col")).1 = tDemo ∧
      (evaluate tDemo (r"metal") (r"tonnage * missing_col")).2.isSome) ∧
    ((evaluate tDemo (r"metal") (r"tonnage * ")).1 = tDemo ∧
      (evaluate tDemo (r"metal") (r"tonnage * ")).2.isSome) :=
  ⟨evaluate_invalid_atomic tDemo (r"metal") (r"tonnage * missing_col")
      (by with_unfolding_all decide),
    evaluate_invalid_atomic tDemo (r"metal") (r"tonnage * ")
      (by with_unfolding_all decide)⟩

/-- C6 (spec-modelled): `evaluate` accepts only pure arithmetic
expressions over existing columns and numeric literals: a successful
run implies the token stream holds no non-arithmetic token and no
call-like identifier-parenthesis shape and that the expression parsed
to an arithmetic syntax tree all of whose column references exist in
the table; conversely any expression containing such a token is
rejected with an error, never executed, and leaves the table
unchanged. -/
theorem evaluate_pure_arith (t : FTable) (name expression : String) :
    ((evaluate t name expression).2 = none →
      badToken (tokenize expression) = false ∧
      ∃ e, parseFull (tokenize expression) = Except.ok e ∧
        ∀ c ∈ Expr.colsOf e, c ∈ columnNames t) ∧
    (badToken (tokenize expression) = true →
      (evaluate t name expression).1 = t ∧ (evaluate t name expression).2.isSome) := by
  have hmain : (evaluate t name expression).2 = none →
      badToken (tokenize expression) = false ∧
      ∃ e, parseFull (tokenize expression) = Except.ok e ∧
        ∀ c ∈ Expr.colsOf e, c ∈ columnNames t := by
    intro hnone
    rcases evaluate_cases t name expression with ⟨err, heq⟩ | ⟨e, hp, hall, _⟩
    · rw [heq] at hnone
      exact absurd hnone (by simp)
    · exact ⟨goodRun_badToken _ (parseFull_goodRun _ _ hp), e, hp, hall⟩
  refine ⟨hmain, ?_⟩
  intro hbad
  have h2 : (evaluate t name expression).2.isSome := by
    cases ho : (evaluate t name expression).2 with
    | none =>
      obtain ⟨hfalse, _⟩ := hmain ho
      exact absurd hfalse (by simp [hbad])
    | some err => rfl
  exact ⟨evaluate_error_unchanged t name expression h2, h2⟩

/-- Witness for C6: the call-like expression is rejected and the table
is untouched. -/
theorem evaluate_pure_arith_witness :
    (evaluate tDemo (r"newcol") (r"f(1)")).1 = tDemo ∧
    (evaluate tDemo (r"newcol") (r"f(1)")).2.isSome :=
  (evaluate_pure_arith tDemo (r"newcol") (r"f(1)")).2 (by with_unfolding_all decide)
